import Mathlib

/-!
Verification of the BlockSci core: the address/script deduplication and
resolution protocol (`src/parser/script_output.hpp`) and the chain
segmentation / map-reduce traversal engine (`blockchain.cpp`).

The C++ code is shallowly embedded: stateful operations on `AddressState`
become explicit state passing, `uint32_t` quantities become `Nat` (no
subtraction or addition here can wrap for in-range inputs, as proved in the
lemmas below), and the `double` segment size becomes an exact rational,
matching the spec's real-valued description of the segmentation target.
Reads through iterators are modelled with `Option`: a `none` result marks an
out-of-bounds read (undefined behavior in the C++).
-/

/-- The closed enumeration of address kinds (blocksci::AddressType::Enum),
restricted to the kinds appearing in `script_output.hpp`. -/
inductive AddressType where
  | pubkey
  | pubkeyhash
  | witness_pubkeyhash
  | scripthash
  | witness_scripthash
  | multisig
  | nonstandard
  | null_data
deriving DecidableEq, Repr

/-- blocksci::ScriptType::Enum : the equivalence classes of address kinds
that share one script (and one dedup id space). -/
inductive ScriptType where
  | pubkey
  | scripthash
  | multisig
  | nonstandard
  | nulldata
deriving DecidableEq, Repr

/-- Modelled from the spec: `blocksci::scriptType` (address_info.hpp, not in
src) maps each address kind to its script equivalence class; the witness and
hashed variants of public keys share the PUBKEY script, the witness variant
of script hashes shares SCRIPTHASH. -/
def scriptType : AddressType → ScriptType
  | .pubkey => .pubkey
  | .pubkeyhash => .pubkey
  | .witness_pubkeyhash => .pubkey
  | .scripthash => .scripthash
  | .witness_scripthash => .scripthash
  | .multisig => .multisig
  | .nonstandard => .nonstandard
  | .null_data => .nulldata

namespace ScriptInfo

/-- Modelled from the spec: the compile-time `blocksci::ScriptInfo<script>::deduped`
trait (script_info.hpp, not in src). Public-key and script-hash scripts are
deduplicated by hash; multisig, nonstandard and null-data scripts are not. -/
def deduped : ScriptType → Bool
  | .pubkey => true
  | .scripthash => true
  | .multisig => false
  | .nonstandard => false
  | .nulldata => false

end ScriptInfo

/-- blocksci::RawScript : the dedup key, a 160-bit hash together with the
script kind. The hash is modelled as the abstract numeric value of the
exogenous hash function. -/
structure RawScript where
  hash : ℕ
  kind : ScriptType
deriving DecidableEq, Repr

/-- Per-script-kind id allocation counters of the AddressState: the number of
ids handed out so far for each kind (the next fresh id is the count plus
one, so the first id of each kind is 1). -/
structure ScriptCounters where
  pubkey : ℕ
  scripthash : ℕ
  multisig : ℕ
  nonstandard : ℕ
  nulldata : ℕ
deriving DecidableEq, Repr

def ScriptCounters.get (c : ScriptCounters) : ScriptType → ℕ
  | .pubkey => c.pubkey
  | .scripthash => c.scripthash
  | .multisig => c.multisig
  | .nonstandard => c.nonstandard
  | .nulldata => c.nulldata

def ScriptCounters.bump (c : ScriptCounters) : ScriptType → ScriptCounters
  | .pubkey => { c with pubkey := c.pubkey + 1 }
  | .scripthash => { c with scripthash := c.scripthash + 1 }
  | .multisig => { c with multisig := c.multisig + 1 }
  | .nonstandard => { c with nonstandard := c.nonstandard + 1 }
  | .nulldata => { c with nulldata := c.nulldata + 1 }

/-- Association-list lookup for the dedup table; returns 0 ("not found") when
the key is absent. Allocated ids are always ≥ 1, so 0 is never a stored id. -/
def lookupTable : List (RawScript × ℕ) → RawScript → ℕ
  | [], _ => 0
  | (k, v) :: rest, r => if k = r then v else lookupTable rest r

/-- Modelled from the spec: AddressState (address_state.hpp, not in src), the
mutable dictionary mapping RawScript keys to canonical numeric ids, plus the
per-kind id allocation counters. -/
structure AddressState where
  table : List (RawScript × ℕ)
  counters : ScriptCounters
deriving DecidableEq, Repr

/-- A fresh AddressState: empty dedup table, all counters at zero. -/
def freshAddressState : AddressState := ⟨[], ⟨0, 0, 0, 0, 0⟩⟩

/-- Result of `AddressState::findAddress`: the key looked up together with the
id found for it (0 when the key is absent, as used by ScriptOutput::check). -/
structure AddressLookupResult where
  rawScript : RawScript
  addressNum : ℕ
deriving DecidableEq, Repr

/-- Modelled from the spec: `AddressState::findAddress(RawScript)` performs a
pure lookup in the dedup table. -/
def AddressState.findAddress (s : AddressState) (r : RawScript) : AddressLookupResult :=
  ⟨r, lookupTable s.table r⟩

/-- Modelled from the spec: `AddressState::resolveAddress` returns the found
id with `isNew = false` on a hit, and on a miss allocates the next id for the
key's kind, inserts the key, and returns it with `isNew = true`. -/
def AddressState.resolveAddress (s : AddressState) (info : AddressLookupResult) :
    (ℕ × Bool) × AddressState :=
  if info.addressNum ≠ 0 then
    ((info.addressNum, false), s)
  else
    let newId := s.counters.get info.rawScript.kind + 1
    ((newId, true),
      { table := (info.rawScript, newId) :: s.table,
        counters := s.counters.bump info.rawScript.kind })

/-- Modelled from the spec: `AddressState::getNewAddressIndex(kind)` hands out
a fresh id for a non-deduped kind without touching the dedup table. -/
def AddressState.getNewAddressIndex (s : AddressState) (k : ScriptType) :
    ℕ × AddressState :=
  (s.counters.get k + 1, { s with counters := s.counters.bump k })

/-- ScriptData<PUBKEY>: the payload is a public key; `getHash` is
`pubkey.GetID()`, an exogenous hash of the key bytes, modelled as the stored
abstract hash value. -/
structure PubkeyData where
  pubkeyHash : ℕ
deriving DecidableEq, Repr

/-- ScriptOutput<PUBKEY>, the element type of a multisig's member vector:
payload plus resolved numeric id and "newly inserted" flag. -/
structure ScriptOutputPubkey where
  data : PubkeyData
  scriptNum : ℕ
  isNew : Bool
deriving DecidableEq, Repr

/-- ScriptData<PUBKEYHASH>. -/
structure PubkeyHashData where
  hash : ℕ
deriving DecidableEq, Repr

/-- ScriptData<WITNESS_PUBKEYHASH>. -/
structure WitnessPubkeyHashData where
  hash : ℕ
deriving DecidableEq, Repr

/-- ScriptData<SCRIPTHASH>. -/
structure ScriptHashData where
  hash : ℕ
deriving DecidableEq, Repr

/-- ScriptData<WITNESS_SCRIPTHASH>; the stored hash is 256-bit and `getHash`
maps it to the 160-bit dedup key by an exogenous hash, modelled as the stored
abstract value. -/
structure WitnessScriptHashData where
  hash : ℕ
deriving DecidableEq, Repr

/-- ScriptData<MULTISIG>: threshold, declared total, running count of
collected members, and the member public-key outputs. -/
structure MultisigData where
  numRequired : ℕ
  numTotal : ℕ
  addressCount : ℕ
  addresses : List ScriptOutputPubkey
deriving DecidableEq, Repr

/-- Modelled from the spec: `ScriptData<MULTISIG>::addAddress` (body not in
src) collects one member public key and bumps the collected-member count. -/
def MultisigData.addAddress (d : MultisigData) (h : ℕ) : MultisigData :=
  { d with addresses := d.addresses ++ [⟨⟨h⟩, 0, false⟩],
           addressCount := d.addressCount + 1 }

/-- ScriptData<NONSTANDARD>: the raw script bytes. -/
structure NonstandardData where
  script : List ℕ
deriving DecidableEq, Repr

/-- ScriptData<NULL_DATA>: the embedded data bytes. -/
structure NullDataData where
  fullData : List ℕ
deriving DecidableEq, Repr

/-- The ScriptData template: one payload type per address kind. -/
def ScriptData : AddressType → Type
  | .pubkey => PubkeyData
  | .pubkeyhash => PubkeyHashData
  | .witness_pubkeyhash => WitnessPubkeyHashData
  | .scripthash => ScriptHashData
  | .witness_scripthash => WitnessScriptHashData
  | .multisig => MultisigData
  | .nonstandard => NonstandardData
  | .null_data => NullDataData


instance ScriptData.instDecEq : (t : AddressType) → DecidableEq (ScriptData t)
  | .pubkey => inferInstanceAs (DecidableEq PubkeyData)
  | .pubkeyhash => inferInstanceAs (DecidableEq PubkeyHashData)
  | .witness_pubkeyhash => inferInstanceAs (DecidableEq WitnessPubkeyHashData)
  | .scripthash => inferInstanceAs (DecidableEq ScriptHashData)
  | .witness_scripthash => inferInstanceAs (DecidableEq WitnessScriptHashData)
  | .multisig => inferInstanceAs (DecidableEq MultisigData)
  | .nonstandard => inferInstanceAs (DecidableEq NonstandardData)
  | .null_data => inferInstanceAs (DecidableEq NullDataData)

/-- `ScriptData<type>::getHash()`: the 160-bit dedup key hash. Only the
deduped kinds declare it in the source; for the non-deduped kinds the value
is never read (the `if constexpr` branch using it is not instantiated), so 0
stands in. -/
def getHash : (t : AddressType) → ScriptData t → ℕ
  | .pubkey, d => d.pubkeyHash
  | .pubkeyhash, d => d.hash
  | .witness_pubkeyhash, d => d.hash
  | .scripthash, d => d.hash
  | .witness_scripthash, d => d.hash
  | .multisig, _ => 0
  | .nonstandard, _ => 0
  | .null_data, _ => 0

/-- ScriptOutput<PUBKEY>::resolve for one multisig member: PUBKEY is deduped,
so look the key up and resolve it against the table; the nested
`data.resolve` is the no-op `ScriptDataBase::resolve`. -/
def resolveMember (so : ScriptOutputPubkey) (state : AddressState) :
    ScriptOutputPubkey × AddressState :=
  let raw : RawScript := ⟨so.data.pubkeyHash, .pubkey⟩
  let info := state.findAddress raw
  let r := state.resolveAddress info
  (⟨so.data, r.1.1, r.1.2⟩, r.2)

/-- Modelled from the spec: the body of `ScriptData<MULTISIG>::resolve`
(script_output.cpp, not in src) resolves each collected member public key in
order as an independent deduped public-key identity. -/
def resolveMembers : List ScriptOutputPubkey → AddressState →
    List ScriptOutputPubkey × AddressState
  | [], s => ([], s)
  | m :: ms, s =>
    let r := resolveMember m s
    let rest := resolveMembers ms r.2
    (r.1 :: rest.1, rest.2)

/-- ScriptOutput<PUBKEY>::check for one multisig member: the read-only lookup;
`scriptNum` is the found id and `isNew` flags a missing key. -/
def checkMember (so : ScriptOutputPubkey) (state : AddressState) :
    ScriptOutputPubkey × AddressState :=
  let raw : RawScript := ⟨so.data.pubkeyHash, .pubkey⟩
  let info := state.findAddress raw
  (⟨so.data, info.addressNum, info.addressNum == 0⟩, state)

/-- Modelled from the spec: the body of `ScriptData<MULTISIG>::check`
(script_output.cpp, not in src) re-validates each member public key with the
read-only lookup. -/
def checkMembers : List ScriptOutputPubkey → AddressState →
    List ScriptOutputPubkey × AddressState
  | [], s => ([], s)
  | m :: ms, s =>
    let r := checkMember m s
    let rest := checkMembers ms r.2
    (r.1 :: rest.1, rest.2)

/-- `data.resolve(state)`: the nested cascade. Every kind inherits the no-op
`ScriptDataBase::resolve` except MULTISIG, which resolves its members. -/
def dataResolve : (t : AddressType) → ScriptData t → AddressState →
    ScriptData t × AddressState
  | .multisig, d, s =>
    let r := resolveMembers d.addresses s
    ({ d with addresses := r.1 }, r.2)
  | .pubkey, d, s => (d, s)
  | .pubkeyhash, d, s => (d, s)
  | .witness_pubkeyhash, d, s => (d, s)
  | .scripthash, d, s => (d, s)
  | .witness_scripthash, d, s => (d, s)
  | .nonstandard, d, s => (d, s)
  | .null_data, d, s => (d, s)

/-- `data.check(state)`: read-only counterpart of the cascade. -/
def dataCheck : (t : AddressType) → ScriptData t → AddressState →
    ScriptData t × AddressState
  | .multisig, d, s =>
    let r := checkMembers d.addresses s
    ({ d with addresses := r.1 }, r.2)
  | .pubkey, d, s => (d, s)
  | .pubkeyhash, d, s => (d, s)
  | .witness_pubkeyhash, d, s => (d, s)
  | .scripthash, d, s => (d, s)
  | .witness_scripthash, d, s => (d, s)
  | .nonstandard, d, s => (d, s)
  | .null_data, d, s => (d, s)

/-- `isValid()`: per-kind structural validity. Every kind inherits the
always-true `ScriptDataBase::isValid` except MULTISIG:
`numRequired <= numTotal && numTotal == addressCount`. -/
def dataIsValid : (t : AddressType) → ScriptData t → Bool
  | .multisig, d => decide (d.numRequired ≤ d.numTotal) && decide (d.numTotal = d.addressCount)
  | .pubkey, _ => true
  | .pubkeyhash, _ => true
  | .witness_pubkeyhash, _ => true
  | .scripthash, _ => true
  | .witness_scripthash, _ => true
  | .nonstandard, _ => true
  | .null_data, _ => true

/-- ScriptOutput<type>: a payload coupled with its resolved identity. -/
structure ScriptOutput (t : AddressType) where
  data : ScriptData t
  scriptNum : ℕ
  isNew : Bool

/-- The id-assignment half of `ScriptOutput::resolve`: for deduped kinds look
the RawScript key up and resolve it (insert on miss); for non-deduped kinds
always allocate a fresh id with `isNew = true`. -/
def ScriptOutput.resolveStep {t : AddressType} (so : ScriptOutput t)
    (state : AddressState) : ScriptOutput t × AddressState :=
  let script := scriptType t
  if ScriptInfo.deduped script then
    let raw : RawScript := ⟨getHash t so.data, script⟩
    let info := state.findAddress raw
    let r := state.resolveAddress info
    (⟨so.data, r.1.1, r.1.2⟩, r.2)
  else
    let r := state.getNewAddressIndex script
    (⟨so.data, r.1, true⟩, r.2)

/-- `ScriptOutput::resolve`: assign the id, then cascade-resolve the nested
payload only when the id was newly inserted. -/
def ScriptOutput.resolve {t : AddressType} (so : ScriptOutput t)
    (state : AddressState) : ScriptOutput t × AddressState :=
  let r := so.resolveStep state
  if r.1.isNew then
    let c := dataResolve t r.1.data r.2
    (⟨c.1, r.1.scriptNum, r.1.isNew⟩, c.2)
  else
    r

/-- `ScriptOutput::check`: the read-only lookup (id 0 and `isNew = true` when
absent; always id 0, `isNew = true` for non-deduped kinds), followed by the
unconditional read-only cascade `data.check(state)`. -/
def ScriptOutput.check {t : AddressType} (so : ScriptOutput t)
    (state : AddressState) : ScriptOutput t × AddressState :=
  let script := scriptType t
  let step : ScriptOutput t × AddressState :=
    if ScriptInfo.deduped script then
      let raw : RawScript := ⟨getHash t so.data, script⟩
      let info := state.findAddress raw
      (⟨so.data, info.addressNum, info.addressNum == 0⟩, state)
    else
      (⟨so.data, 0, true⟩, state)
  let c := dataCheck t step.1.data step.2
  (⟨c.1, step.1.scriptNum, step.1.isNew⟩, c.2)

/-- AnyScriptOutput: the closed tagged union over all address kinds. -/
structure AnyScriptOutput where
  kind : AddressType
  out : ScriptOutput kind

/-- `AnyScriptOutput::check` dispatches to the wrapped kind's check. -/
def AnyScriptOutput.check (a : AnyScriptOutput) (state : AddressState) :
    AnyScriptOutput × AddressState :=
  let r := a.out.check state
  (⟨a.kind, r.1⟩, r.2)

/-- `AnyScriptOutput::resolve` dispatches to the wrapped kind's resolve. -/
def AnyScriptOutput.resolve (a : AnyScriptOutput) (state : AddressState) :
    AnyScriptOutput × AddressState :=
  let r := a.out.resolve state
  (⟨a.kind, r.1⟩, r.2)


/-!
## Chain segmentation and map-reduce (blockchain.cpp)

A chain is modelled by the list of its blocks' transaction counts, so the
Block invariants `endTxIndex - firstTxIndex == size` and the contiguity of
consecutive blocks hold by construction, as the spec's data model requires.
A block is identified by its height, a transaction by its global index, and
a segment is the list of the heights of its blocks.

The C++ computes `segmentSize = double(totalTxCount) / segmentCount` and
compares block boundaries against it. Following the spec's real-valued
description of the target, each comparison with this quotient is embedded
exactly, by cross-multiplying with `segmentCount`:
`a > segmentSize` becomes `a * segmentCount > totalTxCount`, and the
`lower_bound` comparison `boundary < *it + segmentSize` becomes
`boundary * segmentCount < *it * segmentCount + totalTxCount`.
All quantities are `uint32_t` counts and indexes; the `Nat` operations below
coincide with the C++ ones on every value the function actually computes
(the subtraction `lastTx - *it` never wraps, because every boundary read
in range lies at or below `lastTx`).

The loop in `segmentChain` walks an iterator over the boundary array
`txIndexes`; dereferencing it past the end of the array is undefined
behavior in C++, embedded here as the `none` result. The loop is embedded
with a fuel argument; `segmentChain` provides `endBlock + 1` fuel, enough
for every terminating run of the C++ loop (the position strictly increases
toward `endBlock` on every iteration the C++ completes, see
`segLoop_advances`), so `none` is returned exactly when the C++ has no
defined result.
-/

/-- `chain[i].firstTxIndex()`: the number of transactions strictly before
block `i`. -/
def firstTxIndex (sizes : List ℕ) (i : ℕ) : ℕ := (sizes.take i).sum

/-- `chain[i].endTxIndex()`: the half-open end of block `i`'s transaction
range. -/
def endTxIndex (sizes : List ℕ) (i : ℕ) : ℕ := (sizes.take (i + 1)).sum

/-- `block.size()`: the transaction count of block `i` (0 past the chain,
never read there by the embedded code). -/
def blockSize (sizes : List ℕ) (i : ℕ) : ℕ := sizes.getD i 0

/-- The `txIndexes` boundary array built by `segmentChain`: one entry per
block of the whole chain, holding that block's `firstTxIndex`. -/
def txBoundaries (sizes : List ℕ) : List ℕ :=
  (List.range sizes.length).map (firstTxIndex sizes)

/-- `std::lower_bound(it, endIt, breakPoint)` over positions `[lo, hi)` of
the monotone boundary array: the smallest position whose boundary is not
less than `breakPoint = *it + segmentSize`, or `hi` if there is none. The
comparison `boundary < breakPoint` is cross-multiplied by `segmentCount`:
`bpNum` is `(*it) * segmentCount + totalTxCount`, i.e. the breakpoint scaled
by `segmentCount`. On the partitioned range searched here the binary search
and this scan return the same position. -/
def lowerBound (xs : List ℕ) (lo hi : ℕ) (bpNum c : ℕ) : ℕ :=
  lo + ((xs.drop lo).take (hi - lo)).findIdx (fun x => decide (bpNum ≤ x * c))

/-- The while loop of `segmentChain`: while
`lastTx - *it > segmentSize` (cross-multiplied by the segment count `c`),
find the next boundary at or past `*it + segmentSize` within
`[it, txIndexes.begin() + endBlock)` and emit the blocks up to it as one
segment. Returns the final position together with the emitted segments, or
`none` where the C++ has no defined result (an out-of-bounds read of
`*it`, or, only when the fuel is insufficient, a still-running loop). -/
def segLoop (txIndexes : List ℕ) (lastTx totalTxCount c endBlock : ℕ) :
    ℕ → ℕ → List (List ℕ) → Option (ℕ × List (List ℕ))
  | 0, _, _ => none
  | fuel + 1, p, acc =>
    match txIndexes.get? p with
    | none => none
    | some v =>
      if (lastTx - v) * c > totalTxCount then
        segLoop txIndexes lastTx totalTxCount c endBlock fuel
          (lowerBound txIndexes p endBlock (v * c + totalTxCount) c)
          (acc ++ [List.range' p (lowerBound txIndexes p endBlock (v * c + totalTxCount) c - p)])
      else some (p, acc)

/-- `blocksci::segmentChain(chain, startBlock, endBlock, segmentCount)`:
split the half-open block range `[startBlock, endBlock)` into segments of
roughly `totalTxCount / segmentCount` transactions each, splitting only at
block boundaries; if the loop already emitted `segmentCount` segments, merge
the remaining blocks into the last segment, otherwise append them as one
final segment. -/
def segmentChain (sizes : List ℕ) (startBlock endBlock : ℕ) (segmentCount : ℕ) :
    Option (List (List ℕ)) :=
  let lastTx := endTxIndex sizes (endBlock - 1)
  let firstTx := firstTxIndex sizes startBlock
  let totalTxCount := lastTx - firstTx
  let txIndexes := txBoundaries sizes
  match segLoop txIndexes lastTx totalTxCount segmentCount endBlock
      (endBlock + 1) startBlock [] with
  | none => none
  | some r =>
    let remaining := List.range' r.1 (endBlock - r.1)
    some (if r.2.length = segmentCount then
            r.2.dropLast ++ [r.2.getLastD [] ++ remaining]
          else r.2 ++ [remaining])

/-- The transactions of block `b`, in chain order: the half-open index range
from its `firstTxIndex` to its `endTxIndex`. -/
def blockTxs (sizes : List ℕ) (b : ℕ) : List ℕ :=
  List.range' (firstTxIndex sizes b) (blockSize sizes b)

/-- The transactions of a segment, in chain order (the doubly nested
`for (block in segment) for (tx in block)` collection). -/
def segmentTxs (sizes : List ℕ) (seg : List ℕ) : List ℕ :=
  (seg.map (blockTxs sizes)).flatten

/-- Modelled from the spec: `Blockchain::mapReduce` (blockchain.hpp, not in
src) computes the segments of `[startBlock, endBlock)` for an
implementation-chosen `segmentCount` (typically the available parallelism),
applies `map` to every segment, and folds the partial results serially with
`reduce`, in original segment order, into the accumulator. The parallel
execution of the `map` calls is immaterial here because `map` is pure. -/
def mapReduce {R : Type} (sizes : List ℕ) (startBlock endBlock segmentCount : ℕ)
    (mapF : List ℕ → R) (reduceF : R → R → R) (init : R) : Option R :=
  (segmentChain sizes startBlock endBlock segmentCount).map
    (fun segs => segs.foldl (fun acc seg => reduceF acc (mapF seg)) init)

/-- The map function of the Transaction overload of `filter`
(blockchain.cpp): scan the segment's blocks in order and collect the
transactions satisfying the predicate. -/
def filterSegment (sizes : List ℕ) (pred : ℕ → Bool) (seg : List ℕ) : List ℕ :=
  (seg.map (fun b => (blockTxs sizes b).filter pred)).flatten

/-- The Transaction overload of `blocksci::filter`: mapReduce with the
collecting map above and in-order concatenation as the reduce. -/
def filterTxs (sizes : List ℕ) (startBlock endBlock segmentCount : ℕ)
    (pred : ℕ → Bool) : Option (List ℕ) :=
  mapReduce sizes startBlock endBlock segmentCount
    (filterSegment sizes pred) (fun a b => a ++ b) []

/-!
## Helper lemmas: address resolution
-/

/-- For deduped kinds the nested cascade is the no-op
`ScriptDataBase::resolve`: only MULTISIG overrides it, and MULTISIG is not
deduped. -/
theorem dataResolve_of_deduped {t : AddressType}
    (h : ScriptInfo.deduped (scriptType t) = true) (d : ScriptData t)
    (s : AddressState) : dataResolve t d s = (d, s) := by
  cases t <;> simp_all [dataResolve, scriptType, ScriptInfo.deduped]

/-- The read-only member cascade of `ScriptData<MULTISIG>::check` returns the
state it was given. -/
theorem checkMembers_state (ms : List ScriptOutputPubkey) (s : AddressState) :
    (checkMembers ms s).2 = s := by
  induction ms generalizing s with
  | nil => rfl
  | cons m ms ih => simp [checkMembers, checkMember, ih]

/-- The nested `data.check` cascade returns the state it was given, for every
kind. -/
theorem dataCheck_state (t : AddressType) (d : ScriptData t) (s : AddressState) :
    (dataCheck t d s).2 = s := by
  cases t <;> simp [dataCheck, checkMembers_state]

/-- `ScriptOutput::check` returns the state it was given: it only performs
lookups. -/
theorem ScriptOutput.check_state {t : AddressType} (so : ScriptOutput t)
    (s : AddressState) : (so.check s).2 = s := by
  unfold ScriptOutput.check
  by_cases h : ScriptInfo.deduped (scriptType t) = true <;>
    simp [h, dataCheck_state]

/-- Resolving one member whose key is already in the table reuses the stored
id, reports `isNew = false`, and leaves the state untouched. -/
theorem resolveMember_found {m : ScriptOutputPubkey} {s : AddressState}
    (h : lookupTable s.table ⟨m.data.pubkeyHash, .pubkey⟩ ≠ 0) :
    resolveMember m s =
      (⟨m.data, lookupTable s.table ⟨m.data.pubkeyHash, .pubkey⟩, false⟩, s) := by
  simp [resolveMember, AddressState.findAddress, AddressState.resolveAddress, h]

/-- Resolving one member whose key is absent allocates the next pubkey id,
inserts the key, and reports `isNew = true`. -/
theorem resolveMember_miss {m : ScriptOutputPubkey} {s : AddressState}
    (h : lookupTable s.table ⟨m.data.pubkeyHash, .pubkey⟩ = 0) :
    resolveMember m s =
      (⟨m.data, s.counters.get .pubkey + 1, true⟩,
       ⟨(⟨m.data.pubkeyHash, .pubkey⟩, s.counters.get .pubkey + 1) :: s.table,
        s.counters.bump .pubkey⟩) := by
  simp [resolveMember, AddressState.findAddress, AddressState.resolveAddress, h]

/-- The combined invariant of the multisig member cascade: the multisig id
counter is untouched, present table entries keep their ids, and each member
output carries its original payload together with a nonzero id under which
its key can be found in the resulting table. -/
theorem resolveMembers_spec (ms : List ScriptOutputPubkey) (s : AddressState) :
    (resolveMembers ms s).2.counters.multisig = s.counters.multisig ∧
    (∀ k, lookupTable s.table k ≠ 0 →
      lookupTable (resolveMembers ms s).2.table k = lookupTable s.table k) ∧
    List.Forall₂ (fun m m' => m'.data = m.data ∧
      lookupTable (resolveMembers ms s).2.table ⟨m.data.pubkeyHash, ScriptType.pubkey⟩
        = m'.scriptNum ∧ m'.scriptNum ≠ 0)
      ms (resolveMembers ms s).1 := by
  induction ms generalizing s with
  | nil => exact ⟨rfl, fun k _ => rfl, List.Forall₂.nil⟩
  | cons m ms ih =>
    by_cases h : lookupTable s.table ⟨m.data.pubkeyHash, ScriptType.pubkey⟩ = 0
    · -- miss: insert at the head, then resolve the rest
      have hme := resolveMember_miss (m := m) (s := s) h
      set s1 : AddressState :=
        ⟨(⟨m.data.pubkeyHash, ScriptType.pubkey⟩, s.counters.get .pubkey + 1) :: s.table,
         s.counters.bump .pubkey⟩ with hs1
      have hrm : resolveMembers (m :: ms) s =
          ((⟨m.data, s.counters.get .pubkey + 1, true⟩ : ScriptOutputPubkey)
            :: (resolveMembers ms s1).1, (resolveMembers ms s1).2) := by
        simp [resolveMembers, hme]
      obtain ⟨ihc, ihm, ihf⟩ := ih s1
      refine ⟨?_, ?_, ?_⟩
      · rw [hrm]; rw [ihc]; simp [hs1, ScriptCounters.bump, ScriptCounters.get]
      · intro k hk
        rw [hrm]
        have hk1 : lookupTable s1.table k ≠ 0 := by
          simp only [hs1, lookupTable]
          by_cases he : (⟨m.data.pubkeyHash, ScriptType.pubkey⟩ : RawScript) = k
          · subst he; simp_all
          · simp [he, hk]
        rw [ihm k hk1]
        simp only [hs1, lookupTable]
        by_cases he : (⟨m.data.pubkeyHash, ScriptType.pubkey⟩ : RawScript) = k
        · subst he; simp_all
        · simp [he]
      · rw [hrm]
        refine List.Forall₂.cons ⟨rfl, ?_, by simp⟩ ?_
        · have : lookupTable s1.table ⟨m.data.pubkeyHash, ScriptType.pubkey⟩
              = s.counters.get .pubkey + 1 := by simp [hs1, lookupTable]
          rw [ihm _ (by rw [this]; omega), this]
        · exact ihf
    · -- found: state unchanged, resolve the rest from s
      have hme := resolveMember_found (m := m) (s := s) h
      have hrm : resolveMembers (m :: ms) s =
          ((⟨m.data, lookupTable s.table ⟨m.data.pubkeyHash, ScriptType.pubkey⟩, false⟩
            : ScriptOutputPubkey) :: (resolveMembers ms s).1, (resolveMembers ms s).2) := by
        simp [resolveMembers, hme]
      obtain ⟨ihc, ihm, ihf⟩ := ih s
      refine ⟨by rw [hrm]; exact ihc, ?_, ?_⟩
      · intro k hk; rw [hrm]; exact ihm k hk
      · rw [hrm]
        exact List.Forall₂.cons ⟨rfl, ihm _ h, h⟩ ihf

/-- When every member key is already in the table, the member cascade is a
pure lookup: each member gets the stored id with `isNew = false` and the
state is returned unchanged. -/
theorem resolveMembers_all_found (ms : List ScriptOutputPubkey) (s : AddressState)
    (h : ∀ m ∈ ms, lookupTable s.table ⟨m.data.pubkeyHash, ScriptType.pubkey⟩ ≠ 0) :
    resolveMembers ms s =
      (ms.map (fun m =>
        ⟨m.data, lookupTable s.table ⟨m.data.pubkeyHash, ScriptType.pubkey⟩, false⟩), s) := by
  induction ms with
  | nil => rfl
  | cons m ms ih =>
    have hm := h m (by simp)
    have hms : ∀ m' ∈ ms, lookupTable s.table ⟨m'.data.pubkeyHash, ScriptType.pubkey⟩ ≠ 0 :=
      fun m' hmem => h m' (by simp [hmem])
    simp [resolveMembers, resolveMember_found hm, ih hms]

/-- Mapping both sides of a pointwise relation that equates `f` of the left
element with `g` of the right yields equal lists. -/
theorem forall₂_map_eq {ms ms' : List ScriptOutputPubkey}
    {f : ScriptOutputPubkey → ℕ} {g : ScriptOutputPubkey → ℕ}
    (h : List.Forall₂ (fun m m' => f m = g m') ms ms') :
    ms.map f = ms'.map g := by
  induction h with
  | nil => rfl
  | cons hrel _ ih => simp [ih, hrel]

/-!
## Helper lemmas: segmentation
-/

theorem sum_take_succ_getD (l : List ℕ) (i : ℕ) :
    (l.take (i + 1)).sum = (l.take i).sum + l.getD i 0 := by
  rw [List.take_succ]
  rcases h : l[i]? with _ | v
  · simp [List.getD, h]
  · simp [List.getD, h]

theorem firstTxIndex_succ (sizes : List ℕ) (i : ℕ) :
    firstTxIndex sizes (i + 1) = firstTxIndex sizes i + blockSize sizes i :=
  sum_take_succ_getD sizes i

theorem firstTxIndex_mono (sizes : List ℕ) {i j : ℕ} (h : i ≤ j) :
    firstTxIndex sizes i ≤ firstTxIndex sizes j := by
  induction j with
  | zero => simp_all [firstTxIndex]
  | succ j ih =>
    rcases Nat.lt_or_ge i (j + 1) with hlt | hge
    · exact le_trans (ih (by omega)) (by rw [firstTxIndex_succ]; omega)
    · have : i = j + 1 := by omega
      subst this; rfl

theorem txBoundaries_length (sizes : List ℕ) :
    (txBoundaries sizes).length = sizes.length := by
  simp [txBoundaries]

theorem txBoundaries_get? (sizes : List ℕ) {i : ℕ} (h : i < sizes.length) :
    (txBoundaries sizes).get? i = some (firstTxIndex sizes i) := by
  simp [txBoundaries, List.get?_eq_getElem?, List.getElem?_map,
    List.getElem?_range h]

theorem txBoundaries_getD (sizes : List ℕ) {i : ℕ} (h : i < sizes.length) :
    (txBoundaries sizes).getD i 0 = firstTxIndex sizes i := by
  have := txBoundaries_get? sizes h
  rw [List.get?_eq_getElem?] at this
  simp [List.getD, this]

theorem lowerBound_ge (xs : List ℕ) (lo hi bpNum c : ℕ) :
    lo ≤ lowerBound xs lo hi bpNum c :=
  Nat.le_add_right lo _

theorem lowerBound_le (xs : List ℕ) {lo hi : ℕ} (bpNum c : ℕ) (h : lo ≤ hi) :
    lowerBound xs lo hi bpNum c ≤ hi := by
  have h1 := @List.findIdx_le_length ℕ (fun x => decide (bpNum ≤ x * c))
    ((xs.drop lo).take (hi - lo))
  have h2 : ((xs.drop lo).take (hi - lo)).length ≤ hi - lo :=
    List.length_take_le _ _
  unfold lowerBound
  omega

theorem lowerBound_found (xs : List ℕ) {lo hi : ℕ} (bpNum c : ℕ)
    (hlen : hi ≤ xs.length) (hfound : lowerBound xs lo hi bpNum c < hi) :
    bpNum ≤ xs.getD (lowerBound xs lo hi bpNum c) 0 * c := by
  have hlo : lo < hi := Nat.lt_of_le_of_lt (lowerBound_ge xs lo hi bpNum c) hfound
  have hwlen : ((xs.drop lo).take (hi - lo)).length = hi - lo := by
    rw [List.length_take, List.length_drop]
    omega
  have hjlt : ((xs.drop lo).take (hi - lo)).findIdx (fun x => decide (bpNum ≤ x * c))
      < ((xs.drop lo).take (hi - lo)).length := by
    have : lowerBound xs lo hi bpNum c
        = lo + ((xs.drop lo).take (hi - lo)).findIdx (fun x => decide (bpNum ≤ x * c)) := rfl
    omega
  set j := ((xs.drop lo).take (hi - lo)).findIdx (fun x => decide (bpNum ≤ x * c)) with hj
  have hlt : lo + j < xs.length := by omega
  have hsome : xs[lo + j]? = some (xs.getD (lo + j) 0) := by
    rw [List.getElem?_eq_getElem hlt]
    simp [List.getD, List.get?_eq_getElem?, List.getElem?_eq_getElem hlt]
  have hv : ((xs.drop lo).take (hi - lo))[j]? = some (xs.getD (lo + j) 0) := by
    rw [List.getElem?_take_of_lt (by omega : j < hi - lo), List.getElem?_drop]
    exact hsome
  have hpred := List.findIdx_of_getElem?_eq_some (p := fun x => decide (bpNum ≤ x * c)) hv
  show bpNum ≤ xs.getD (lo + j) 0 * c
  simpa using hpred


theorem segLoop_some_spec (txIdx : List ℕ) (lastTx T c endBlock : ℕ) :
    ∀ fuel p acc r, segLoop txIdx lastTx T c endBlock fuel p acc = some r →
      p ≤ r.1 ∧ (p ≤ endBlock → r.1 ≤ endBlock) ∧
      r.2.flatten = acc.flatten ++ List.range' p (r.1 - p) := by
  intro fuel
  induction fuel with
  | zero => intro p acc r h; simp [segLoop] at h
  | succ fuel ih =>
    intro p acc r h
    rcases hv : txIdx.get? p with _ | v
    · simp only [segLoop, hv] at h
      exact Option.noConfusion h
    · simp only [segLoop, hv] at h
      by_cases hc : (lastTx - v) * c > T
      · rw [if_pos hc] at h
        obtain ⟨h1, h2, h3⟩ := ih _ _ _ h
        have hq1 : p ≤ lowerBound txIdx p endBlock (v * c + T) c :=
          lowerBound_ge txIdx p endBlock (v * c + T) c
        refine ⟨by omega, ?_, ?_⟩
        · intro hpe
          exact h2 (lowerBound_le txIdx (v * c + T) c hpe)
        · rw [h3]
          simp only [List.flatten_append, List.flatten_cons, List.flatten_nil,
            List.append_nil]
          rw [List.append_assoc]
          congr 1
          have := List.range'_append_1 p
            (lowerBound txIdx p endBlock (v * c + T) c - p)
            (r.1 - lowerBound txIdx p endBlock (v * c + T) c)
          rw [show p + (lowerBound txIdx p endBlock (v * c + T) c - p)
              = lowerBound txIdx p endBlock (v * c + T) c by omega] at this
          rw [this]
          congr 1
          omega
      · rw [if_neg hc] at h
        obtain rfl : (p, acc) = r := Option.some_inj.mp h
        exact ⟨le_refl p, fun h => h, by simp⟩

theorem segLoop_count (sizes : List ℕ) (T c endBlock : ℕ)
    (he2 : endBlock ≤ sizes.length) :
    ∀ fuel p acc r base,
      segLoop (txBoundaries sizes) (firstTxIndex sizes endBlock) T c endBlock
        fuel p acc = some r →
      p ≤ endBlock →
      base + acc.length * T ≤ firstTxIndex sizes p * c →
      base + r.2.length * T ≤ firstTxIndex sizes endBlock * c := by
  intro fuel
  induction fuel with
  | zero => intro p acc r base h; simp [segLoop] at h
  | succ fuel ih =>
    intro p acc r base h hpe hinv
    rcases hv : (txBoundaries sizes).get? p with _ | v
    · simp only [segLoop, hv] at h
      exact Option.noConfusion h
    · have hplen : p < sizes.length := by
        have := List.get?_eq_some.mp hv
        obtain ⟨hlt, _⟩ := this
        rw [txBoundaries_length] at hlt
        exact hlt
      have hveq : v = firstTxIndex sizes p := by
        have := txBoundaries_get? sizes hplen
        rw [hv] at this
        exact Option.some_inj.mp this
      subst hveq
      simp only [segLoop, hv] at h
      by_cases hc : (firstTxIndex sizes endBlock - firstTxIndex sizes p) * c > T
      · rw [if_pos hc] at h
        set q := lowerBound (txBoundaries sizes) p endBlock
          (firstTxIndex sizes p * c + T) c with hq
        have hqe : q ≤ endBlock :=
          lowerBound_le (txBoundaries sizes) (firstTxIndex sizes p * c + T) c hpe
        have hstep : base + (acc.length + 1) * T ≤ firstTxIndex sizes q * c := by
          have hmul : (acc.length + 1) * T = acc.length * T + T := by ring
          rcases Nat.lt_or_ge q endBlock with hqlt | hqge
          · have hfound := lowerBound_found (txBoundaries sizes)
              (firstTxIndex sizes p * c + T) c
              (by rw [txBoundaries_length]; exact he2) (hq ▸ hqlt)
            rw [← hq] at hfound
            rw [txBoundaries_getD sizes (by omega)] at hfound
            omega
          · have hqeq : q = endBlock := by omega
            have hvle : firstTxIndex sizes p ≤ firstTxIndex sizes endBlock :=
              firstTxIndex_mono sizes hpe
            have hsub : (firstTxIndex sizes endBlock - firstTxIndex sizes p) * c
                = firstTxIndex sizes endBlock * c - firstTxIndex sizes p * c :=
              Nat.sub_mul _ _ _
            have hvc : firstTxIndex sizes p * c ≤ firstTxIndex sizes endBlock * c :=
              Nat.mul_le_mul_right c hvle
            rw [hqeq]
            omega
        have hacc : (acc ++ [List.range' p (q - p)]).length = acc.length + 1 := by simp
        have := ih q (acc ++ [List.range' p (q - p)]) r base h
          hqe (by rw [hacc]; exact hstep)
        exact this
      · rw [if_neg hc] at h
        obtain rfl : (p, acc) = r := Option.some_inj.mp h
        have hmono : firstTxIndex sizes p * c ≤ firstTxIndex sizes endBlock * c :=
          Nat.mul_le_mul_right c (firstTxIndex_mono sizes hpe)
        show base + acc.length * T ≤ firstTxIndex sizes endBlock * c
        omega

theorem sum_blockSize_range' (sizes : List ℕ) :
    ∀ (k s : ℕ), ((List.range' s k).map (blockSize sizes)).sum
      = firstTxIndex sizes (s + k) - firstTxIndex sizes s := by
  intro k
  induction k with
  | zero => simp
  | succ k ih =>
    intro s
    rw [List.range'_succ]
    have h1 := firstTxIndex_succ sizes s
    have h2 := ih (s + 1)
    have h3 : s + (k + 1) = (s + 1) + k := by omega
    have h4 : firstTxIndex sizes (s + 1) ≤ firstTxIndex sizes ((s + 1) + k) :=
      firstTxIndex_mono sizes (by omega)
    simp only [List.map_cons, List.sum_cons, h2, h3]
    omega

theorem sum_segments_eq_sum_flatten (f : ℕ → ℕ) (segs : List (List ℕ)) :
    (segs.map (fun seg => (seg.map f).sum)).sum = (segs.flatten.map f).sum := by
  rw [List.map_flatten, List.sum_flatten, List.map_map]
  rfl

theorem flatten_merge_last (l : List (List ℕ)) (rest : List ℕ) (h : l ≠ []) :
    (l.dropLast ++ [l.getLastD [] ++ rest]).flatten = l.flatten ++ rest := by
  have hgl : l.getLastD [] = l.getLast h := by
    rw [List.getLastD_eq_getLast?, List.getLast?_eq_getLast l h]
    rfl
  calc (l.dropLast ++ [l.getLastD [] ++ rest]).flatten
      = l.dropLast.flatten ++ (l.getLastD [] ++ rest) := by
        simp [List.flatten_append]
    _ = (l.dropLast.flatten ++ l.getLastD []) ++ rest := by rw [List.append_assoc]
    _ = (l.dropLast ++ [l.getLastD []]).flatten ++ rest := by simp [List.flatten_append]
    _ = l.flatten ++ rest := by rw [hgl, List.dropLast_concat_getLast h]

theorem length_merge_last (l : List (List ℕ)) (x : List ℕ) (h : l ≠ []) :
    (l.dropLast ++ [x]).length = l.length := by
  simp [List.length_dropLast]
  have : 1 ≤ l.length := List.length_pos.mpr h
  omega

theorem foldl_append_collect {α β : Type} (f : α → List β) :
    ∀ (l : List α) (init : List β),
      l.foldl (fun acc x => acc ++ f x) init = init ++ (l.map f).flatten := by
  intro l
  induction l with
  | nil => simp
  | cons x l ih => intro init; simp [ih, List.append_assoc]

theorem segmentTxs_flatten (sizes : List ℕ) (segs : List (List ℕ)) :
    (segs.map (segmentTxs sizes)).flatten = segmentTxs sizes segs.flatten := by
  induction segs with
  | nil => rfl
  | cons seg segs ih =>
    simp only [List.map_cons, List.flatten_cons, ih, segmentTxs, List.map_append,
      List.flatten_append]

theorem segmentTxs_range' (sizes : List ℕ) :
    ∀ (k s : ℕ), segmentTxs sizes (List.range' s k)
      = List.range' (firstTxIndex sizes s)
          (firstTxIndex sizes (s + k) - firstTxIndex sizes s) := by
  intro k
  induction k with
  | zero => simp [segmentTxs]
  | succ k ih =>
    intro s
    rw [List.range'_succ]
    have h1 := firstTxIndex_succ sizes s
    have h4 : firstTxIndex sizes (s + 1) ≤ firstTxIndex sizes ((s + 1) + k) :=
      firstTxIndex_mono sizes (by omega)
    simp only [segmentTxs, List.map_cons, List.flatten_cons] at ih ⊢
    rw [ih (s + 1)]
    unfold blockTxs
    rw [show firstTxIndex sizes (s + 1) = firstTxIndex sizes s + blockSize sizes s from h1]
    rw [List.range'_append_1]
    congr 1
    have h5 : s + (k + 1) = (s + 1) + k := by omega
    rw [h5]
    omega

theorem filterSegment_eq (sizes : List ℕ) (pred : ℕ → Bool) (seg : List ℕ) :
    filterSegment sizes pred seg = (segmentTxs sizes seg).filter pred := by
  simp [filterSegment, segmentTxs, List.filter_flatten, List.map_map]
  rfl

theorem endTx_firstTx (sizes : List ℕ) {e : ℕ} (h : 1 ≤ e) :
    endTxIndex sizes (e - 1) = firstTxIndex sizes e := by
  unfold endTxIndex firstTxIndex
  rw [show e - 1 + 1 = e by omega]

theorem segmentChain_spec (sizes : List ℕ) {s e c : ℕ} {segs : List (List ℕ)}
    (hs : s < e) (he : e ≤ sizes.length) (hc : 1 ≤ c)
    (h : segmentChain sizes s e c = some segs) :
    segs.flatten = List.range' s (e - s) ∧ segs.length ≤ c := by
  simp only [segmentChain] at h
  rcases hL : segLoop (txBoundaries sizes) (endTxIndex sizes (e - 1))
      (endTxIndex sizes (e - 1) - firstTxIndex sizes s) c e (e + 1) s [] with _ | r
  · rw [hL] at h
    exact Option.noConfusion h
  · rw [hL] at h
    dsimp only at h
    obtain ⟨hr1, hr2, hr3⟩ := segLoop_some_spec _ _ _ _ _ _ _ _ _ hL
    have hre : r.1 ≤ e := hr2 (by omega)
    simp only [List.flatten_nil, List.nil_append] at hr3
    -- bound on the number of loop-emitted segments
    have hlen : r.2.length ≤ c := by
      by_cases hT : 1 ≤ endTxIndex sizes (e - 1) - firstTxIndex sizes s
      · have hfe : endTxIndex sizes (e - 1) = firstTxIndex sizes e :=
          endTx_firstTx sizes (by omega)
        rw [hfe] at hL
        have hcount := segLoop_count sizes
          (firstTxIndex sizes e - firstTxIndex sizes s) c e he
          (e + 1) s [] r (firstTxIndex sizes s * c) hL (by omega)
          (by simp)
        have hmono : firstTxIndex sizes s ≤ firstTxIndex sizes e :=
          firstTxIndex_mono sizes (by omega)
        have hadd : firstTxIndex sizes e * c
            = (firstTxIndex sizes e - firstTxIndex sizes s) * c
              + firstTxIndex sizes s * c := by
          rw [Nat.sub_mul]
          have : firstTxIndex sizes s * c ≤ firstTxIndex sizes e * c :=
            Nat.mul_le_mul_right c hmono
          omega
        have hcancel : r.2.length * (firstTxIndex sizes e - firstTxIndex sizes s)
            ≤ c * (firstTxIndex sizes e - firstTxIndex sizes s) := by
          have : (firstTxIndex sizes e - firstTxIndex sizes s) * c
              = c * (firstTxIndex sizes e - firstTxIndex sizes s) := Nat.mul_comm _ _
          omega
        rw [hfe] at hT
        exact Nat.le_of_mul_le_mul_right
          (by omega : r.2.length * (firstTxIndex sizes e - firstTxIndex sizes s)
            ≤ c * (firstTxIndex sizes e - firstTxIndex sizes s)) (by omega)
      · -- empty range: the loop exits on its first condition check
        have hT0 : endTxIndex sizes (e - 1) - firstTxIndex sizes s = 0 := by omega
        have hvs := txBoundaries_get? sizes (show s < sizes.length by omega)
        have hfse : firstTxIndex sizes s ≤ endTxIndex sizes (e - 1) := by
          rw [endTx_firstTx sizes (by omega : 1 ≤ e)]
          exact firstTxIndex_mono sizes (by omega)
        have hexit : segLoop (txBoundaries sizes) (endTxIndex sizes (e - 1))
            (endTxIndex sizes (e - 1) - firstTxIndex sizes s) c e (e + 1) s []
            = some (s, []) := by
          show segLoop _ _ _ _ _ (e + 1) s [] = _
          simp only [segLoop, hvs, hT0]
          rw [if_neg]
          simp
        rw [hexit] at hL
        obtain rfl : (s, ([] : List (List ℕ))) = r := Option.some_inj.mp hL
        simp
    by_cases hm : r.2.length = c
    · rw [if_pos hm] at h
      obtain rfl := Option.some_inj.mp h
      have hne : r.2 ≠ [] := by
        intro hnil
        rw [hnil] at hm
        simp at hm
        omega
      constructor
      · rw [flatten_merge_last _ _ hne, hr3]
        have happ := List.range'_append_1 s (r.1 - s) (e - r.1)
        rw [Nat.add_sub_cancel' hr1] at happ
        rw [show e - r.1 + (r.1 - s) = e - s by omega] at happ
        exact happ
      · rw [length_merge_last _ _ hne]
        omega
    · rw [if_neg hm] at h
      obtain rfl := Option.some_inj.mp h
      constructor
      · rw [List.flatten_append, List.flatten_cons, List.flatten_nil,
          List.append_nil, hr3]
        have happ := List.range'_append_1 s (r.1 - s) (e - r.1)
        rw [Nat.add_sub_cancel' hr1] at happ
        rw [show e - r.1 + (r.1 - s) = e - s by omega] at happ
        exact happ
      · simp
        omega

/-- Every element of the left list of a pointwise relation has a related
element in the right list. -/
theorem forall₂_left_mem {α β : Type} {R : α → β → Prop} {l1 : List α}
    {l2 : List β} (h : List.Forall₂ R l1 l2) : ∀ a ∈ l1, ∃ b ∈ l2, R a b := by
  induction h with
  | nil => simp
  | cons hr _ ih =>
    intro a ha
    rcases List.mem_cons.mp ha with rfl | ha
    · exact ⟨_, by simp, hr⟩
    · rcases ih a ha with ⟨b, hb, hrb⟩
      exact ⟨b, by simp [hb], hrb⟩

/-!
## Claim theorems
-/

/-- C1: for every deduped address kind, resolving the same RawScript key
twice in sequence against an AddressState that does not yet contain it
yields the same numeric id both times — the id freshly allocated for that
kind, its counter plus one — with `isNew = true` on the first resolve and
`isNew = false` on the second. -/
theorem c1_dedup_resolve_idempotent {t : AddressType} (d : ScriptData t)
    (st : AddressState)
    (hd : ScriptInfo.deduped (scriptType t) = true)
    (habs : lookupTable st.table ⟨getHash t d, scriptType t⟩ = 0) :
    ((⟨d, 0, false⟩ : ScriptOutput t).resolve st).1.scriptNum
        = st.counters.get (scriptType t) + 1 ∧
    ((⟨d, 0, false⟩ : ScriptOutput t).resolve st).1.isNew = true ∧
    ((⟨d, 0, false⟩ : ScriptOutput t).resolve
        (((⟨d, 0, false⟩ : ScriptOutput t).resolve st).2)).1.scriptNum
      = ((⟨d, 0, false⟩ : ScriptOutput t).resolve st).1.scriptNum ∧
    ((⟨d, 0, false⟩ : ScriptOutput t).resolve
        (((⟨d, 0, false⟩ : ScriptOutput t).resolve st).2)).1.isNew = false := by
  have h1 : (⟨d, 0, false⟩ : ScriptOutput t).resolve st
      = (⟨d, st.counters.get (scriptType t) + 1, true⟩,
         ⟨(⟨getHash t d, scriptType t⟩, st.counters.get (scriptType t) + 1) :: st.table,
          st.counters.bump (scriptType t)⟩) := by
    unfold ScriptOutput.resolve ScriptOutput.resolveStep
    simp [hd, AddressState.findAddress, AddressState.resolveAddress, habs,
      dataResolve_of_deduped hd]
  have h2 : (⟨d, 0, false⟩ : ScriptOutput t).resolve
      (⟨(⟨getHash t d, scriptType t⟩, st.counters.get (scriptType t) + 1) :: st.table,
        st.counters.bump (scriptType t)⟩ : AddressState)
      = (⟨d, st.counters.get (scriptType t) + 1, false⟩,
         ⟨(⟨getHash t d, scriptType t⟩, st.counters.get (scriptType t) + 1) :: st.table,
          st.counters.bump (scriptType t)⟩) := by
    unfold ScriptOutput.resolve ScriptOutput.resolveStep
    simp [hd, AddressState.findAddress, AddressState.resolveAddress, lookupTable]
  rw [h1]
  simp only []
  rw [h2]
  simp

/-- C1 witness, the spec's concrete dedup scenario: two hashed-public-key
scripts with the same 160-bit hash against a fresh AddressState resolve to
`(id = 1, isNew = true)` and then `(id = 1, isNew = false)`. -/
theorem c1_witness :
    ScriptInfo.deduped (scriptType .pubkeyhash) = true ∧
    lookupTable freshAddressState.table
      ⟨getHash .pubkeyhash (⟨77⟩ : PubkeyHashData), scriptType .pubkeyhash⟩ = 0 ∧
    ((⟨(⟨77⟩ : PubkeyHashData), 0, false⟩ : ScriptOutput .pubkeyhash).resolve
        freshAddressState).1.scriptNum = 1 ∧
    ((⟨(⟨77⟩ : PubkeyHashData), 0, false⟩ : ScriptOutput .pubkeyhash).resolve
        freshAddressState).1.isNew = true ∧
    ((⟨(⟨77⟩ : PubkeyHashData), 0, false⟩ : ScriptOutput .pubkeyhash).resolve
        (((⟨(⟨77⟩ : PubkeyHashData), 0, false⟩ : ScriptOutput .pubkeyhash).resolve
          freshAddressState).2)).1.scriptNum
      = ((⟨(⟨77⟩ : PubkeyHashData), 0, false⟩ : ScriptOutput .pubkeyhash).resolve
          freshAddressState).1.scriptNum ∧
    ((⟨(⟨77⟩ : PubkeyHashData), 0, false⟩ : ScriptOutput .pubkeyhash).resolve
        (((⟨(⟨77⟩ : PubkeyHashData), 0, false⟩ : ScriptOutput .pubkeyhash).resolve
          freshAddressState).2)).1.isNew = false := by
  have h := c1_dedup_resolve_idempotent (t := .pubkeyhash) (⟨77⟩ : PubkeyHashData)
    freshAddressState (by decide) (by decide)
  exact ⟨by decide, by decide, by decide, h.2.1, h.2.2.1, h.2.2.2⟩

/-- C2: the nested payload cascade of `ScriptOutput::resolve` runs exactly
when the id assignment reported `isNew = true`; when it reported
`isNew = false`, the payload is returned as parsed and the AddressState is
exactly the input state — no nested resolution or mutation occurs. -/
theorem c2_cascade_iff_isNew {t : AddressType} (so : ScriptOutput t)
    (st : AddressState) :
    (so.resolve st).1.isNew = (so.resolveStep st).1.isNew ∧
    ((so.resolve st).1.data, (so.resolve st).2)
      = (if (so.resolveStep st).1.isNew = true
         then dataResolve t so.data (so.resolveStep st).2
         else (so.data, st)) := by
  by_cases hd : ScriptInfo.deduped (scriptType t) = true
  · by_cases hf : lookupTable st.table ⟨getHash t so.data, scriptType t⟩ = 0
    · have hstep : so.resolveStep st
          = (⟨so.data, st.counters.get (scriptType t) + 1, true⟩,
             ⟨(⟨getHash t so.data, scriptType t⟩,
               st.counters.get (scriptType t) + 1) :: st.table,
              st.counters.bump (scriptType t)⟩) := by
        unfold ScriptOutput.resolveStep
        simp [hd, AddressState.findAddress, AddressState.resolveAddress, hf]
      unfold ScriptOutput.resolve
      rw [hstep]
      simp
    · have hstep : so.resolveStep st
          = (⟨so.data, lookupTable st.table ⟨getHash t so.data, scriptType t⟩, false⟩,
             st) := by
        unfold ScriptOutput.resolveStep
        simp [hd, AddressState.findAddress, AddressState.resolveAddress, hf]
      unfold ScriptOutput.resolve
      rw [hstep]
      simp
  · have hstep : so.resolveStep st
        = (⟨so.data, st.counters.get (scriptType t) + 1, true⟩,
           { st with counters := st.counters.bump (scriptType t) }) := by
      unfold ScriptOutput.resolveStep
      simp [hd, AddressState.getNewAddressIndex]
    unfold ScriptOutput.resolve
    rw [hstep]
    simp

/-- C2 witness: at a hashed-public-key script whose key is already indexed
the resolve reports `isNew = false`, keeps the parsed payload and leaves the
state untouched; at a fresh two-member multisig it reports `isNew = true`
and the result is exactly the cascade applied to the id-assigned state. -/
theorem c2_witness :
    (((⟨(⟨5⟩ : PubkeyHashData), 0, false⟩ : ScriptOutput .pubkeyhash).resolve
        (⟨[(⟨5, .pubkey⟩, 3)], ⟨3, 0, 0, 0, 0⟩⟩ : AddressState)).1.data,
     ((⟨(⟨5⟩ : PubkeyHashData), 0, false⟩ : ScriptOutput .pubkeyhash).resolve
        (⟨[(⟨5, .pubkey⟩, 3)], ⟨3, 0, 0, 0, 0⟩⟩ : AddressState)).2)
      = ((⟨5⟩ : PubkeyHashData), (⟨[(⟨5, .pubkey⟩, 3)], ⟨3, 0, 0, 0, 0⟩⟩ : AddressState)) ∧
    (((⟨((⟨2, 2, 0, []⟩ : MultisigData).addAddress 7).addAddress 8, 0, false⟩
        : ScriptOutput .multisig).resolve freshAddressState).1.data,
     ((⟨((⟨2, 2, 0, []⟩ : MultisigData).addAddress 7).addAddress 8, 0, false⟩
        : ScriptOutput .multisig).resolve freshAddressState).2)
      = dataResolve .multisig (((⟨2, 2, 0, []⟩ : MultisigData).addAddress 7).addAddress 8)
          (((⟨((⟨2, 2, 0, []⟩ : MultisigData).addAddress 7).addAddress 8, 0, false⟩
            : ScriptOutput .multisig).resolveStep freshAddressState).2) := by
  constructor
  · have h := (c2_cascade_iff_isNew
      (⟨(⟨5⟩ : PubkeyHashData), 0, false⟩ : ScriptOutput .pubkeyhash)
      (⟨[(⟨5, .pubkey⟩, 3)], ⟨3, 0, 0, 0, 0⟩⟩ : AddressState)).2
    rw [h]
    decide
  · have h := (c2_cascade_iff_isNew
      (⟨((⟨2, 2, 0, []⟩ : MultisigData).addAddress 7).addAddress 8, 0, false⟩
        : ScriptOutput .multisig) freshAddressState).2
    rw [h]
    decide

/-- C3: any sequence of `check` calls, over outputs of any address kinds
(including the nested multisig member cascade), leaves the AddressState's
observable contents unchanged: folding the state through the checks returns
the initial state. -/
theorem c3_check_state_frame (outs : List AnyScriptOutput) (st : AddressState) :
    outs.foldl (fun s a => (a.check s).2) st = st := by
  induction outs generalizing st with
  | nil => rfl
  | cons a outs ih =>
    have : (a.check st).2 = st := by
      unfold AnyScriptOutput.check
      simp [ScriptOutput.check_state]
    simp only [List.foldl_cons, this, ih]

/-- C9: the multisig validity predicate holds exactly when
`numRequired ≤ numTotal` and `numTotal` equals the collected member count;
in particular `numRequired = 3, numTotal = 2` with two collected members is
invalid, `numTotal = 2` with one collected member is invalid, and
`numRequired = 2, numTotal = 3` with exactly three collected members is
valid. -/
theorem c9_multisig_validity :
    (∀ d : MultisigData, dataIsValid .multisig d = true ↔
        d.numRequired ≤ d.numTotal ∧ d.numTotal = d.addressCount) ∧
    dataIsValid .multisig (((⟨3, 2, 0, []⟩ : MultisigData).addAddress 1).addAddress 2)
      = false ∧
    dataIsValid .multisig ((⟨1, 2, 0, []⟩ : MultisigData).addAddress 1) = false ∧
    dataIsValid .multisig
      ((((⟨2, 3, 0, []⟩ : MultisigData).addAddress 1).addAddress 2).addAddress 3)
      = true := by
  refine ⟨fun d => ?_, by decide, by decide, by decide⟩
  simp [dataIsValid]

/-- `ScriptOutput<MULTISIG>::resolve` unfolded: MULTISIG is not deduped, so
the id is a fresh allocation from the multisig counter with `isNew = true`,
and (because `isNew` is always true) the member cascade always runs against
the counter-bumped state. -/
theorem multisig_resolve_unfold (md : MultisigData) (s : AddressState) :
    (⟨md, 0, false⟩ : ScriptOutput .multisig).resolve s
      = (⟨{ md with addresses := (resolveMembers md.addresses
              { s with counters := s.counters.bump ScriptType.multisig }).1 },
          s.counters.get ScriptType.multisig + 1, true⟩,
         (resolveMembers md.addresses
            { s with counters := s.counters.bump ScriptType.multisig }).2) := by
  unfold ScriptOutput.resolve ScriptOutput.resolveStep
  simp [AddressState.getNewAddressIndex, scriptType, ScriptInfo.deduped, dataResolve]

/-- C10: multisig scripts are never hash-deduplicated. Resolving a multisig
payload always allocates the next multisig id with `isNew = true`; resolving
the same payload again immediately afterwards allocates a different fresh id
and again reports `isNew = true`, while the member public keys deduplicate
normally: on the second resolve every member comes back with
`isNew = false`, the same member ids as the first resolve, and the dedup
table is not grown. -/
theorem c10_multisig_not_deduped (md : MultisigData) (st : AddressState) :
    ((⟨md, 0, false⟩ : ScriptOutput .multisig).resolve st).1.isNew = true ∧
    ((⟨md, 0, false⟩ : ScriptOutput .multisig).resolve st).1.scriptNum
      = st.counters.multisig + 1 ∧
    ((⟨md, 0, false⟩ : ScriptOutput .multisig).resolve
        (((⟨md, 0, false⟩ : ScriptOutput .multisig).resolve st).2)).1.isNew = true ∧
    ((⟨md, 0, false⟩ : ScriptOutput .multisig).resolve
        (((⟨md, 0, false⟩ : ScriptOutput .multisig).resolve st).2)).1.scriptNum
      = st.counters.multisig + 2 ∧
    (((⟨md, 0, false⟩ : ScriptOutput .multisig).resolve
        (((⟨md, 0, false⟩ : ScriptOutput .multisig).resolve st).2)).1.data
          : MultisigData).addresses.map (fun m => m.isNew)
      = List.replicate md.addresses.length false ∧
    (((⟨md, 0, false⟩ : ScriptOutput .multisig).resolve
        (((⟨md, 0, false⟩ : ScriptOutput .multisig).resolve st).2)).1.data
          : MultisigData).addresses.map (fun m => m.scriptNum)
      = (((⟨md, 0, false⟩ : ScriptOutput .multisig).resolve st).1.data
          : MultisigData).addresses.map (fun m => m.scriptNum) ∧
    ((⟨md, 0, false⟩ : ScriptOutput .multisig).resolve
        (((⟨md, 0, false⟩ : ScriptOutput .multisig).resolve st).2)).2.table
      = (((⟨md, 0, false⟩ : ScriptOutput .multisig).resolve st).2).table := by
  obtain ⟨hc1, hmono1, hf1⟩ := resolveMembers_spec md.addresses
    { st with counters := st.counters.bump ScriptType.multisig }
  have hpresent : ∀ m ∈ md.addresses,
      lookupTable (resolveMembers md.addresses
          { st with counters := st.counters.bump ScriptType.multisig }).2.table
        ⟨m.data.pubkeyHash, ScriptType.pubkey⟩ ≠ 0 := by
    intro m hm
    rcases forall₂_left_mem hf1 m hm with ⟨m', _, _, hl, hnz⟩
    rw [hl]
    exact hnz
  have hall := resolveMembers_all_found md.addresses
    { (resolveMembers md.addresses
        { st with counters := st.counters.bump ScriptType.multisig }).2 with
      counters := (resolveMembers md.addresses
        { st with counters := st.counters.bump ScriptType.multisig }).2.counters.bump
          ScriptType.multisig }
    (fun m hm => hpresent m hm)
  rw [multisig_resolve_unfold md st]
  simp only []
  rw [multisig_resolve_unfold md
    ((resolveMembers md.addresses
      { st with counters := st.counters.bump ScriptType.multisig }).2)]
  simp only []
  rw [hall]
  simp only []
  refine ⟨trivial, by simp [ScriptCounters.get], trivial, ?_, ?_, ?_, trivial⟩
  · show (resolveMembers md.addresses
        { st with counters := st.counters.bump ScriptType.multisig }).2.counters.multisig
        + 1 = st.counters.multisig + 2
    rw [hc1]
    simp [ScriptCounters.bump]
  · rw [List.map_map]
    rw [List.eq_replicate_iff]
    refine ⟨by simp, ?_⟩
    intro b hb
    simp at hb
    rcases hb with ⟨m, _, rfl⟩
    rfl
  · rw [List.map_map]
    apply forall₂_map_eq
    apply hf1.imp
    intro m m' hrel
    simp only [Function.comp]
    exact hrel.2.1

/-- C4 counterexample: on the valid, skewed input of two blocks with
transaction counts 2 and 200, full range, two segments, `segmentChain` has
no defined result at all (the boundary scan dereferences the end of
`txIndexes`), so the claimed conservation for every valid input fails. -/
theorem c4_counterexample :
    (0 < 2 ∧ 2 ≤ ([2, 200] : List ℕ).length ∧ 1 ≤ 2) ∧
    segmentChain [2, 200] 0 2 2 = none := by decide

/-- C4 (amended): on every valid input on which `segmentChain` completes —
returns a segment list rather than running into the out-of-bounds boundary
read — the sum of the per-segment transaction counts equals the total
transaction count of the range, `endTxIndex (endBlock - 1) - firstTxIndex
startBlock`, for any distribution of per-block transaction counts. -/
theorem c4_conservation_on_completion (sizes : List ℕ) (s e c : ℕ)
    (segs : List (List ℕ)) (hs : s < e) (he : e ≤ sizes.length) (hc : 1 ≤ c)
    (h : segmentChain sizes s e c = some segs) :
    (segs.map (fun seg => (seg.map (blockSize sizes)).sum)).sum
      = endTxIndex sizes (e - 1) - firstTxIndex sizes s := by
  obtain ⟨hflat, _⟩ := segmentChain_spec sizes hs he hc h
  rw [sum_segments_eq_sum_flatten, hflat, sum_blockSize_range']
  rw [show s + (e - s) = e by omega]
  rw [endTx_firstTx sizes (by omega : 1 ≤ e)]

/-- C4 witness: blocks with counts `[4, 1, 3]` split into two segments whose
transaction counts sum to the range total 8. -/
theorem c4_witness :
    (0 < 3 ∧ 3 ≤ ([4, 1, 3] : List ℕ).length ∧ 1 ≤ 2 ∧
      segmentChain [4, 1, 3] 0 3 2 = some [[0], [1, 2]]) ∧
    (([[0], [1, 2]] : List (List ℕ)).map
        (fun seg => (seg.map (blockSize [4, 1, 3])).sum)).sum
      = endTxIndex [4, 1, 3] (3 - 1) - firstTxIndex [4, 1, 3] 0 :=
  ⟨⟨by decide, by decide, by decide, by decide⟩,
    c4_conservation_on_completion [4, 1, 3] 0 3 2 [[0], [1, 2]]
      (by decide) (by decide) (by decide) (by decide)⟩

/-- C5 counterexample: on the valid input of two blocks with counts 1 and
50, full range, two segments, `segmentChain` returns no segment list at all
(out-of-bounds boundary read), so the claimed partition for every valid
input fails. -/
theorem c5_counterexample :
    (0 < 2 ∧ 2 ≤ ([1, 50] : List ℕ).length ∧ 1 ≤ 2) ∧
    segmentChain [1, 50] 0 2 2 = none := by decide

/-- C5 (amended): on every valid input on which `segmentChain` completes,
the returned segments partition `[startBlock, endBlock)` exactly — their
in-order concatenation is precisely the block range, so every block appears
in exactly one segment, segments are contiguous, in increasing order, and
no block is split — and the number of segments never exceeds
`segmentCount`. -/
theorem c5_partition_on_completion (sizes : List ℕ) (s e c : ℕ)
    (segs : List (List ℕ)) (hs : s < e) (he : e ≤ sizes.length) (hc : 1 ≤ c)
    (h : segmentChain sizes s e c = some segs) :
    segs.flatten = List.range' s (e - s) ∧ segs.length ≤ c :=
  segmentChain_spec sizes hs he hc h

/-- C5 witness: blocks with counts `[2, 3, 4]` split into the exact
partition `[[0, 1], [2]]` of `[0, 3)` with 2 ≤ 2 segments. -/
theorem c5_witness :
    (0 < 3 ∧ 3 ≤ ([2, 3, 4] : List ℕ).length ∧ 1 ≤ 2 ∧
      segmentChain [2, 3, 4] 0 3 2 = some [[0, 1], [2]]) ∧
    ([[0, 1], [2]] : List (List ℕ)).flatten = List.range' 0 (3 - 0) ∧
    ([[0, 1], [2]] : List (List ℕ)).length ≤ 2 :=
  ⟨⟨by decide, by decide, by decide, by decide⟩,
    c5_partition_on_completion [2, 3, 4] 0 3 2 [[0, 1], [2]]
      (by decide) (by decide) (by decide) (by decide)⟩

/-- C6: the boundary-array read in the while-loop condition is NOT always in
bounds. On the valid input `startBlock = 0`, `endBlock = 2 = blockCount`,
`segmentCount = 2` over blocks with transaction counts 1 and 100, the lower
bound search returns the end of the searched range (position 2, the end of
the two-entry `txIndexes` array) because the breakpoint 50.5 exceeds every
boundary, and the loop condition then dereferences one past the end of the
array — undefined behavior, `none` in this embedding. -/
theorem c6_out_of_bounds_read :
    (0 < 2 ∧ 2 ≤ ([1, 100] : List ℕ).length ∧ 1 ≤ 2) ∧
    segmentChain [1, 100] 0 2 2 = none := by decide

/-- C7: on the chain with four blocks of five transactions each
(`firstTxIndex` sequence `[0, 5, 10, 15]`, total 20), `segmentChain` over
the full range with `segmentCount = 2` returns exactly the two segments
`[0, 2)` and `[2, 4)`, the boundary falling at block 2, each segment
holding 10 transactions. -/
theorem c7_concrete_segmentation :
    segmentChain [5, 5, 5, 5] 0 4 2 = some [[0, 1], [2, 3]] ∧
    txBoundaries [5, 5, 5, 5] = [0, 5, 10, 15] ∧
    (([0, 1] : List ℕ).map (blockSize [5, 5, 5, 5])).sum = 10 ∧
    (([2, 3] : List ℕ).map (blockSize [5, 5, 5, 5])).sum = 10 := by decide

/-- C8 counterexample: over the full range `[0, 2)` of the chain with block
transaction counts 3 and 300 and an implementation-chosen segment count of
2, `mapReduce` with the collect map and in-order concatenation has no
defined result at all (the segmentation dereferences past the end of the
boundary array), so the claimed identity for every chain fails. -/
theorem c8_counterexample :
    (1 ≤ ([3, 300] : List ℕ).length ∧ 1 ≤ 2) ∧
    mapReduce [3, 300] 0 ([3, 300] : List ℕ).length 2
      (segmentTxs [3, 300]) (fun a b => a ++ b) [] = none := by decide

/-- C8 (amended): whenever the underlying segmentation completes, `mapReduce`
with map = collect-the-segment's-transactions-in-order and reduce = in-order
concatenation over the full range `[0, chainSize)` returns exactly the
sequence of all transactions of the chain in chain order; and `filter` over
any completing valid range returns exactly the in-chain-order subsequence of
the range's transactions satisfying the predicate. -/
theorem c8_mapreduce_identity_on_completion (sizes : List ℕ) (c c' : ℕ)
    (pred : ℕ → Bool) (s e : ℕ) (segsA segsB : List (List ℕ))
    (hnA : 1 ≤ sizes.length) (hcA : 1 ≤ c)
    (hA : segmentChain sizes 0 sizes.length c = some segsA)
    (hsB : s < e) (heB : e ≤ sizes.length) (hcB : 1 ≤ c')
    (hB : segmentChain sizes s e c' = some segsB) :
    mapReduce sizes 0 sizes.length c (segmentTxs sizes) (fun a b => a ++ b) []
      = some (List.range' 0 sizes.sum) ∧
    filterTxs sizes s e c' pred
      = some ((List.range' (firstTxIndex sizes s)
          (endTxIndex sizes (e - 1) - firstTxIndex sizes s)).filter pred) := by
  constructor
  · obtain ⟨hflatA, _⟩ := segmentChain_spec sizes (by omega : 0 < sizes.length)
      (le_refl sizes.length) hcA hA
    unfold mapReduce
    rw [hA]
    simp only [Option.map_some']
    congr 1
    rw [foldl_append_collect, List.nil_append, segmentTxs_flatten, hflatA,
      segmentTxs_range']
    have h0 : firstTxIndex sizes 0 = 0 := rfl
    rw [h0]
    rw [show 0 + (sizes.length - 0) = sizes.length by omega]
    rw [show firstTxIndex sizes sizes.length = sizes.sum by
      unfold firstTxIndex; rw [List.take_length]]
    simp
  · obtain ⟨hflatB, _⟩ := segmentChain_spec sizes hsB heB hcB hB
    unfold filterTxs mapReduce
    rw [hB]
    simp only [Option.map_some']
    congr 1
    rw [foldl_append_collect, List.nil_append]
    have hmap : segsB.map (filterSegment sizes pred)
        = (segsB.map (segmentTxs sizes)).map (List.filter pred) := by
      rw [List.map_map]
      exact List.map_congr_left (fun seg _ => filterSegment_eq sizes pred seg)
    rw [hmap, ← List.filter_flatten, segmentTxs_flatten, hflatB, segmentTxs_range']
    rw [show s + (e - s) = e by omega]
    rw [endTx_firstTx sizes (by omega : 1 ≤ e)]

/-- C8 witness: on the chain with block counts `[2, 2]`, the collect map
with ordered concatenation over the full range reproduces the transaction
sequence `[0, 1, 2, 3]`, and filtering the even transactions over `[0, 2)`
yields `[0, 2]` in chain order. -/
theorem c8_witness :
    (1 ≤ ([2, 2] : List ℕ).length ∧ 1 ≤ 1 ∧
      segmentChain [2, 2] 0 ([2, 2] : List ℕ).length 1 = some [[0, 1]] ∧
      (0 : ℕ) < 2 ∧ 2 ≤ ([2, 2] : List ℕ).length ∧ 1 ≤ 2 ∧
      segmentChain [2, 2] 0 2 2 = some [[0], [1]]) ∧
    mapReduce [2, 2] 0 ([2, 2] : List ℕ).length 1 (segmentTxs [2, 2])
      (fun a b => a ++ b) [] = some (List.range' 0 ([2, 2] : List ℕ).sum) ∧
    filterTxs [2, 2] 0 2 2 (fun t => t % 2 == 0)
      = some ((List.range' (firstTxIndex [2, 2] 0)
          (endTxIndex [2, 2] (2 - 1) - firstTxIndex [2, 2] 0)).filter
            (fun t => t % 2 == 0)) :=
  ⟨⟨by decide, by decide, by decide, by decide, by decide, by decide, by decide⟩,
    (c8_mapreduce_identity_on_completion [2, 2] 1 2 (fun t => t % 2 == 0) 0 2
      [[0, 1]] [[0], [1]] (by decide) (by decide) (by decide) (by decide)
      (by decide) (by decide) (by decide)).1,
    (c8_mapreduce_identity_on_completion [2, 2] 1 2 (fun t => t % 2 == 0) 0 2
      [[0, 1]] [[0], [1]] (by decide) (by decide) (by decide) (by decide)
      (by decide) (by decide) (by decide)).2⟩
